import Mathlib

/-!
Verification of the confidantic configuration / versioning core.

The definitions below are a shallow embedding of
`src/confidantic/__init__.py` and `src/confidantic/versioning.py`:

* Python dicts of string keys are modelled as functions
  `String → Option v` (lookup semantics); `dict.update` / `|` become
  right-biased merges.
* a discovered env file is its path parts together with the key/value
  dict produced by `dotenv_values` (values are `Option String`, `none`
  being a key parsed as null/absent);
* `gather_env_files` is Python's stable `sorted(..., key=len(parts),
  reverse=True)`, embedded as a stable insertion sort;
* the semantic-version regex `_SEMVER_RE` is embedded as an explicit
  matcher on `List Char`, and `f"{n}"` as base-10 rendering via
  `Nat.digits`.
-/

namespace Confidantic

/-! ### Dicts as lookup functions -/

/-- A Python `dict` with keys of type `String` and values of type `v`,
modelled by its lookup function. -/
abbrev Dict (v : Type) := String → Option v

/-- Build a dict from a list of key/value pairs (later pairs overwrite
earlier ones, as in Python dict construction / insertion order). -/
def dictOf {v : Type} (l : List (String × v)) : Dict v :=
  fun k => l.foldl (fun acc p => if p.1 = k then some p.2 else acc) none

/-- `base.update(upd)` / `base | upd`: keys of `upd` win. -/
def dictUpdate {v : Type} (base upd : Dict v) : Dict v :=
  fun k => match upd k with
    | some x => some x
    | none => base k

/-- The empty dict. -/
def dictEmpty {v : Type} : Dict v := fun _ => none

/-! ### Env-file cascade (`gather_env_files` / `load_env_files`) -/

/-- A discovered `*.env` file: its path parts (so `depth = parts.length`,
Python's `len(p.parts)`) and the key/value pairs `dotenv_values` reads
from it, in file order; a `none` value is a key that parses as
null/absent. -/
structure EnvFile where
  parts : List String
  entries : List (String × Option String)
deriving DecidableEq

/-- `len(p.parts)`, the sort key of `gather_env_files`. -/
def EnvFile.depth (f : EnvFile) : Nat := f.parts.length

/-- One step of a stable descending insertion sort by depth: the new
element goes in front of the first element whose depth is not larger
(so among equal depths the earlier-listed file stays first). -/
def insertByDepth (f : EnvFile) : List EnvFile → List EnvFile
  | [] => [f]
  | g :: gs => if f.depth ≥ g.depth then f :: g :: gs else g :: insertByDepth f gs

/-- `gather_env_files`: the recursive listing sorted by
`len(p.parts)` descending ("deepest wins"), with Python's stable
sort. The raw `rglob` listing order is the input list. -/
def gather_env_files (listing : List EnvFile) : List EnvFile :=
  listing.foldr insertByDepth []

/-- The dict accumulated by `load_env_files` before the final
`None`-filtering comprehension: files traversed in reverse (shallow
first, deep last), each merged with `env.update(dotenv_values(fp))`. -/
def loadRaw (files : List EnvFile) : Dict (Option String) :=
  (files.reverse).foldl (fun env f => dictUpdate env (dictOf f.entries)) dictEmpty

/-- `load_env_files`: the raw cascade with `None` values dropped by
`{k: str(v) for k, v in env.items() if v is not None}`. -/
def load_env_files (files : List EnvFile) : Dict String :=
  fun k => match loadRaw files k with
    | some (some s) => some s
    | _ => none

/-! ### Singleton initialization merge (`_SettingsSingleton.init`) -/

/-- Step 2 of `init`: `env_data.update(os.environ)` — the process
environment merged over the file cascade, environment winning. -/
def initEnvMerged (files : List EnvFile) (environ : Dict String) : Dict String :=
  dictUpdate (load_env_files files) environ

/-- The mapping validated in step 3 of `init`:
`env_data | kwargs` — caller overrides win over everything. -/
def initFullMerged (files : List EnvFile) (environ kwargs : Dict String) : Dict String :=
  dictUpdate (initEnvMerged files environ) kwargs

/-! ### `_SettingsSingleton` and `PluginRegistry` state

`model_validate`, enrichment and the snapshot serialisation are external
collaborators; the record built on the first call is abstracted into a
`build` function of the class argument and the keyword overrides, and
the snapshot side effect into a write counter. The cache test
`if cls._instance is not None: return cls._instance` is embedded
verbatim. -/

/-- The class-level state of `_SettingsSingleton`: the cached instance,
the cached record class, and how many times the snapshot file has been
written. `S` is the type of settings records, `C` the type of record
classes. -/
structure SingletonState (S C : Type) where
  inst : Option S
  cls : Option C
  snapshotWrites : Nat

/-- `_SettingsSingleton.init(model_cls, **kwargs)`: return the cache if
present; otherwise build the record, cache it together with its class,
write the snapshot once, and return it. -/
def SettingsSingleton.init {S C : Type} (build : C → Dict String → S)
    (st : SingletonState S C) (model_cls : C) (kwargs : Dict String) :
    SingletonState S C × S :=
  match st.inst with
  | some inst => (st, inst)
  | none =>
      let inst := build model_cls kwargs
      (⟨some inst, some model_cls, st.snapshotWrites + 1⟩, inst)

/-- Process-wide state: the singleton cache plus `PluginRegistry._mixins`.
`M` is the type of mix-in classes. -/
structure ProcState (S C M : Type) where
  singleton : SingletonState S C
  mixins : List M

/-- `PluginRegistry.register`: `cls._mixins.append(mixin)`; the
singleton cache is untouched. -/
def PluginRegistry.register {S C M : Type} (st : ProcState S C M) (m : M) :
    ProcState S C M :=
  { st with mixins := st.mixins ++ [m] }

/-! ### Character classes of `_SEMVER_RE` and decimal digits

Strings are worked with as `List Char`. `int(...)` on a digit group is
the base-10 value of the digit characters; `f"{n}"` is base-10
rendering, via `Nat.digits`. -/

/-- The numeric value of a digit character (`'0'` ↦ 0, …, `'9'` ↦ 9). -/
def charVal (c : Char) : Nat := c.toNat - 48

/-- The digit character of a value `< 10`. -/
def digitChar (d : Nat) : Char :=
  match d with
  | 0 => '0' | 1 => '1' | 2 => '2' | 3 => '3' | 4 => '4'
  | 5 => '5' | 6 => '6' | 7 => '7' | 8 => '8' | _ => '9'

/-- The regex class `\d` (also `0-9` inside `[0-9A-Za-z.-]`). -/
def isDigitChar (c : Char) : Bool := 48 ≤ c.toNat && c.toNat ≤ 57

/-- The regex class `[0-9A-Za-z.-]` of prerelease identifiers. -/
def isPreChar (c : Char) : Bool :=
  isDigitChar c || (65 ≤ c.toNat && c.toNat ≤ 90) ||
    (97 ≤ c.toNat && c.toNat ≤ 122) || c = '.' || c = '-'

/-- ASCII whitespace, as stripped by `str.strip()` and matched by `\s`. -/
def isStripChar (c : Char) : Bool :=
  c = ' ' || c = '\t' || c = '\n' || c = '\r' || c = '\x0b' || c = '\x0c'

/-- `int(s)` for a digit string `s`, most significant digit first. -/
def natOfChars (l : List Char) : Nat := Nat.ofDigits 10 ((l.map charVal).reverse)

/-- Base-10 digits of `n`, least significant first, with an explicit
fuel argument (`n` itself bounds the number of divisions) so the
function is structurally recursive. -/
def digits10Aux : Nat → Nat → List Nat
  | _, 0 => []
  | 0, _ + 1 => []
  | fuel + 1, n + 1 => ((n + 1) % 10) :: digits10Aux fuel ((n + 1) / 10)

/-- Base-10 digits of `n`, least significant first (agrees with
`Nat.digits 10`, see `digits10_eq_digits`). -/
def digits10 (n : Nat) : List Nat := digits10Aux n n

/-- `f"{n}"`: the base-10 rendering of `n`, most significant digit
first. -/
def charsOfNat (n : Nat) : List Char :=
  if n = 0 then ['0'] else (digits10 n).reverse.map digitChar

/-- `str.strip()` (ASCII whitespace from both ends). -/
def pstrip (l : List Char) : List Char :=
  ((l.dropWhile isStripChar).reverse.dropWhile isStripChar).reverse

/-! ### `VersionBase` -/

/-- The `VersionBase` pydantic model: three non-negative integers and an
optional prerelease string. -/
structure VersionBase where
  major : Nat
  minor : Nat
  patch : Nat
  prerelease : Option (List Char)
deriving DecidableEq

/-- One alternative `(0|[1-9]\d*)` of `_SEMVER_RE` followed by its
`int(...)` conversion: consume the maximal digit run (which the
following literal `.`/`-`/end forces the regex to take), reject an
empty run or a leading zero, and return the numeric value with the
rest of the input. -/
def numToken (l : List Char) : Option (Nat × List Char) :=
  match l.takeWhile isDigitChar with
  | [] => none
  | c :: cs =>
    if c = '0' ∧ cs ≠ [] then none
    else some (natOfChars (c :: cs), l.dropWhile isDigitChar)

/-- The literal `\.` of `_SEMVER_RE`: consume a dot. -/
def expectDot : List Char → Option (List Char)
  | '.' :: r => some r
  | _ => none

/-- The tail `(?:-(?P<pre>[0-9A-Za-z.-]+))?$` of `_SEMVER_RE`: either
the end of the input, or a hyphen and a non-empty prerelease of class
characters reaching the end of the input. -/
def preTail : List Char → Option (Option (List Char))
  | [] => some none
  | '-' :: p => if p ≠ [] ∧ p.all isPreChar then some (some p) else none
  | _ => none

/-- `_SEMVER_RE.match` plus the group extraction done by
`VersionBase.parse`: anchored `major.minor.patch` with an optional
`-prerelease` of characters `[0-9A-Za-z.-]`, ending at the end of the
input. -/
def semverMatch (l : List Char) : Option VersionBase :=
  (numToken l).bind fun am =>
    (expectDot am.2).bind fun r1 =>
      (numToken r1).bind fun bm =>
        (expectDot bm.2).bind fun r2 =>
          (numToken r2).bind fun cm =>
            (preTail cm.2).map fun p => ⟨am.1, bm.1, cm.1, p⟩

/-- `VersionBase.parse`: strip the input, match `_SEMVER_RE`, build the
model (`none` embeds the raised `ValueError`). -/
def VersionBase.parse (l : List Char) : Option VersionBase :=
  semverMatch (pstrip l)

/-- `VersionBase.__str__`: `major.minor.patch`, then `-prerelease` when
`self.prerelease` is truthy (non-`None` and non-empty). -/
def VersionBase.str (v : VersionBase) : List Char :=
  let base := charsOfNat v.major ++ '.' :: charsOfNat v.minor ++
    '.' :: charsOfNat v.patch
  match v.prerelease with
  | some p => if p ≠ [] then base ++ '-' :: p else base
  | none => base

/-- The `part` argument of `_bumped`. -/
inductive BumpPart
  | major
  | minor
  | patch
deriving DecidableEq

/-- `VersionBase._bumped`: copy, overwrite the bumped fields (reading
from `self` exactly as the tuple assignments do), then replace the
prerelease by the argument. -/
def VersionBase.bumped (v : VersionBase) (part : BumpPart)
    (pre : Option (List Char)) : VersionBase :=
  let new := v
  let new :=
    match part with
    | .major => { new with major := v.major + 1, minor := 0, patch := 0 }
    | .minor => { new with minor := v.minor + 1, patch := 0 }
    | .patch => { new with patch := new.patch + 1 }
  { new with prerelease := pre }

/-! ### Object-store semantics of `_bumped`

To state that `_bumped` mutates only the copy and never the receiver,
the Python object store is made explicit: `VersionBase` objects live at
addresses, `model_copy` allocates a fresh address holding a copy, and
each field assignment updates the object at an address. -/

/-- A store of `VersionBase` objects: addresses below `next` are
allocated. -/
structure VStore where
  data : Nat → VersionBase
  next : Nat

/-- Read the object at an address. -/
def VStore.get (s : VStore) (a : Nat) : VersionBase := s.data a

/-- Overwrite the object at an address. -/
def VStore.set (s : VStore) (a : Nat) (v : VersionBase) : VStore :=
  { s with data := fun x => if x = a then v else s.data x }

/-- `_bumped` over the object store: `new = self.model_copy()` allocates
a fresh object, the tuple assignments write `new`'s fields (reading
`self.major`, `self.minor`, `new.patch` as the source does), and
`new.prerelease = prerelease` finishes; the address of `new` is
returned. -/
def bumpedInStore (s : VStore) (self : Nat) (part : BumpPart)
    (pre : Option (List Char)) : VStore × Nat :=
  let addr := s.next
  let s1 : VStore := ⟨fun x => if x = addr then s.data self else s.data x, s.next + 1⟩
  let s2 :=
    match part with
    | .major =>
        s1.set addr { s1.get addr with major := (s1.get self).major + 1, minor := 0, patch := 0 }
    | .minor =>
        s1.set addr { s1.get addr with minor := (s1.get self).minor + 1, patch := 0 }
    | .patch =>
        s1.set addr { s1.get addr with patch := (s1.get addr).patch + 1 }
  (s2.set addr { s2.get addr with prerelease := pre }, addr)

/-! ### Filesystem model and `bump_at_project_root`

The filesystem is a partial map from paths (lists of components) to
texts. `tomllib.loads` plus the `project.version` / `tool.poetry.version`
lookup of `_read_version` is an external collaborator, passed in as
`toml`. The regexes `_PYPROJECT_RE` and `_INIT_RE` (`^kw\s*=\s*"(.*?)"`
in multiline mode) are embedded as an explicit scanner over line
starts. -/

abbrev FilePath' := List String

abbrev FS := FilePath' → Option (List Char)

/-- Match `kw\s*=\s*"(.*?)"` at the current position (a line start) and
return the input remaining after the matched span. The lazy group stops
at the first `"`; `.` does not cross a newline. -/
def matchAssignAt (kw : List Char) (l : List Char) : Option (List Char) :=
  if l.take kw.length = kw then
    match (l.drop kw.length).dropWhile isStripChar with
    | '=' :: r1 =>
      match r1.dropWhile isStripChar with
      | '"' :: r2 =>
        match r2.dropWhile (fun c => !(c == '"' || c == '\n')) with
        | '"' :: r3 => some r3
        | _ => none
      | _ => none
    | _ => none
  else none

/-- The character-by-character scan of `re` over the text: when
`atStart` is true the current position is a line start (position 0 or
just after a newline), where the anchored pattern may match; on a match
the span is replaced by `repl`, otherwise the scan advances one
character. Returns `none` when no position matches. -/
def substLoop (kw repl : List Char) : Bool → List Char → Option (List Char)
  | _, [] => none
  | true, c :: tl =>
    match matchAssignAt kw (c :: tl) with
    | some suffix => some (repl ++ suffix)
    | none => (substLoop kw repl (c == '\n') tl).map (fun t => c :: t)
  | false, c :: tl => (substLoop kw repl (c == '\n') tl).map (fun t => c :: t)

/-- `re.subn(pattern, repl, txt, count=1)` for the anchored multiline
assignment pattern: replace the first matched span (matches can start
only at line starts), returning `none` when the pattern is absent. -/
def substAssignFirst (kw : List Char) (l : List Char) (repl : List Char) :
    Option (List Char) :=
  substLoop kw repl true l

/-- The `version` keyword of `_PYPROJECT_RE`. -/
def pyprojectKw : List Char := ['v', 'e', 'r', 's', 'i', 'o', 'n']

/-- The `__version__` keyword of `_INIT_RE`. -/
def initKw : List Char :=
  ['_', '_', 'v', 'e', 'r', 's', 'i', 'o', 'n', '_', '_']

/-- The errors `bump_at_project_root` and its helpers can raise. -/
inductive BumpError
  | manifestMissing
  | entryPointMissing
  | versionKeyMissing
  | parseFailure
  | substitutionFailure
deriving DecidableEq

/-- `VersionBase._write_pyproject`: substitute the single version
assignment line, failing (before any write) when the pattern is
absent. -/
def write_pyproject (fs : FS) (p : FilePath') (new : VersionBase) :
    Except BumpError FS :=
  match fs p with
  | none => .error .manifestMissing
  | some txt =>
    match substAssignFirst pyprojectKw txt
        (('v' :: 'e' :: 'r' :: 's' :: 'i' :: 'o' :: 'n' :: ' ' :: '=' :: ' ' :: '"' :: new.str) ++ ['"']) with
    | none => .error .substitutionFailure
    | some txt2 => .ok (fun q => if q = p then some txt2 else fs q)

/-- `VersionBase._write_init`: substitute the `__version__` line when
the pattern is found, otherwise insert the assignment at the very
top. -/
def write_init (fs : FS) (p : FilePath') (new : VersionBase) :
    Except BumpError FS :=
  match fs p with
  | none => .error .entryPointMissing
  | some txt =>
    let repl := (initKw ++ (' ' :: '=' :: ' ' :: '"' :: new.str)) ++ ['"']
    match substAssignFirst initKw txt repl with
    | some txt2 => .ok (fun q => if q = p then some txt2 else fs q)
    | none => .ok (fun q => if q = p then some (repl ++ '\n' :: txt) else fs q)

/-- `VersionBase.bump_at_project_root`: check both target files exist,
read and parse the current version (the TOML lookup is the external
`toml`), compute the bump; on a dry run return it, otherwise rewrite
the manifest then the entry point, threading the filesystem and
stopping at the first error. -/
def bump_at_project_root (toml : List Char → Option (List Char)) (fs : FS)
    (root : FilePath') (part : BumpPart) (pre : Option (List Char))
    (dry_run : Bool) : FS × Except BumpError VersionBase :=
  let ppath := root ++ ["pyproject.toml"]
  let ipath := root ++ ["src", root.getLastD "", "__init__.py"]
  match fs ppath with
  | none => (fs, .error .manifestMissing)
  | some ptxt =>
    match fs ipath with
    | none => (fs, .error .entryPointMissing)
    | some _ =>
      match toml ptxt with
      | none => (fs, .error .versionKeyMissing)
      | some vstr =>
        match VersionBase.parse vstr with
        | none => (fs, .error .parseFailure)
        | some current =>
          let bumped := current.bumped part pre
          if dry_run then (fs, .ok bumped)
          else
            match write_pyproject fs ppath bumped with
            | .error e => (fs, .error e)
            | .ok fs2 =>
              match write_init fs2 ipath bumped with
              | .error e => (fs2, .error e)
              | .ok fs3 => (fs3, .ok bumped)

/-! ## Lemmas about the env-file cascade -/

/-- Sorted by depth, descending. -/
def DSorted (l : List EnvFile) : Prop :=
  l.Pairwise (fun a b => b.depth ≤ a.depth)

theorem loadRaw_cons (f : EnvFile) (rest : List EnvFile) :
    loadRaw (f :: rest) = dictUpdate (loadRaw rest) (dictOf f.entries) := by
  unfold loadRaw
  rw [List.reverse_cons, List.foldl_append]
  rfl

theorem loadRaw_cons_def {f : EnvFile} {k : String} {u : Option String}
    (rest : List EnvFile) (h : dictOf f.entries k = some u) :
    loadRaw (f :: rest) k = some u := by
  rw [loadRaw_cons]
  unfold dictUpdate
  rw [h]

theorem loadRaw_cons_skip {f : EnvFile} {k : String} (rest : List EnvFile)
    (h : dictOf f.entries k = none) :
    loadRaw (f :: rest) k = loadRaw rest k := by
  rw [loadRaw_cons]
  unfold dictUpdate
  rw [h]

theorem mem_insertByDepth {a f : EnvFile} {l : List EnvFile} :
    a ∈ insertByDepth f l ↔ a = f ∨ a ∈ l := by
  induction l with
  | nil => simp [insertByDepth]
  | cons g gs ih =>
    unfold insertByDepth
    by_cases h : f.depth ≥ g.depth
    · simp [h]
    · simp only [h, if_false, List.mem_cons, ih]
      tauto

theorem insertByDepth_sorted {f : EnvFile} {l : List EnvFile}
    (hs : DSorted l) : DSorted (insertByDepth f l) := by
  induction l with
  | nil => simp [insertByDepth, DSorted]
  | cons g gs ih =>
    unfold insertByDepth
    rcases hs with - | ⟨hg, hgs⟩
    by_cases h : f.depth ≥ g.depth
    · simp only [h, if_true]
      exact .cons (by
          intro x hx
          rcases List.mem_cons.1 hx with rfl | hx
          · exact h
          · exact le_trans (hg x hx) h)
        (.cons hg hgs)
    · simp only [h, if_false]
      refine .cons ?_ (ih hgs)
      intro x hx
      rcases mem_insertByDepth.1 hx with rfl | hx
      · omega
      · exact hg x hx

theorem mem_gather {a : EnvFile} {l : List EnvFile} :
    a ∈ gather_env_files l ↔ a ∈ l := by
  induction l with
  | nil => simp [gather_env_files]
  | cons g gs ih =>
    show a ∈ insertByDepth g (gather_env_files gs) ↔ _
    rw [mem_insertByDepth, ih]
    simp [eq_comm]

theorem gather_sorted (l : List EnvFile) : DSorted (gather_env_files l) := by
  induction l with
  | nil => exact .nil
  | cons g gs ih => exact insertByDepth_sorted ih

/-- In a depth-sorted cascade, the raw merged dict maps a key to the
value given by its unique deepest definer (a file "defines" a key when
`dotenv_values` has an entry for it, null or not). -/
theorem loadRaw_sorted_deepest {L : List EnvFile} (hs : DSorted L)
    {f : EnvFile} (hf : f ∈ L) {k : String} {u : Option String}
    (hfv : dictOf f.entries k = some u)
    (hmax : ∀ g ∈ L, (dictOf g.entries k).isSome → g = f ∨ g.depth < f.depth) :
    loadRaw L k = some u := by
  induction L with
  | nil => cases hf
  | cons g rest ih =>
    rcases hs with - | ⟨hg, hrest⟩
    by_cases hdef : (dictOf g.entries k).isSome
    · rcases hmax g (List.mem_cons_self g rest) hdef with rfl | hlt
      · exact loadRaw_cons_def rest hfv
      · exfalso
        have hfr : f ∈ rest := by
          rcases List.mem_cons.1 hf with rfl | hfr
          · omega
          · exact hfr
        have := hg f hfr
        omega
    · have hnone : dictOf g.entries k = none := by
        cases hval : dictOf g.entries k with
        | none => rfl
        | some x => rw [hval] at hdef; simp at hdef
      rw [loadRaw_cons_skip rest hnone]
      have hfr : f ∈ rest := by
        rcases List.mem_cons.1 hf with rfl | hfr
        · rw [hfv] at hnone; cases hnone
        · exact hfr
      exact ih hrest hfr fun g' hg' hd => hmax g' (List.mem_cons_of_mem g hg') hd

/-! ## Lemmas about digits and version rendering -/

theorem digits10Aux_eq {fuel n : Nat} (h : n ≤ fuel) :
    digits10Aux fuel n = Nat.digits 10 n := by
  induction fuel generalizing n with
  | zero =>
    have : n = 0 := by omega
    subst this
    rw [Nat.digits_zero]
    rfl
  | succ fuel ih =>
    match n with
    | 0 => rw [Nat.digits_zero]; rfl
    | n + 1 =>
      rw [digits10Aux, Nat.digits_def' (by norm_num : (1 : Nat) < 10) (Nat.succ_pos n)]
      congr 1
      apply ih
      have : (n + 1) / 10 < n + 1 := Nat.div_lt_self (Nat.succ_pos n) (by norm_num)
      omega

theorem digits10_eq_digits (n : Nat) : digits10 n = Nat.digits 10 n :=
  digits10Aux_eq (le_refl n)

theorem char_eq_of_toNat {c d : Char} (h : c.toNat = d.toNat) : c = d :=
  Char.ext (UInt32.ext h)

theorem isDigitChar_bounds {c : Char} (h : isDigitChar c = true) :
    48 ≤ c.toNat ∧ c.toNat ≤ 57 := by
  unfold isDigitChar at h
  rw [Bool.and_eq_true, decide_eq_true_eq, decide_eq_true_eq] at h
  exact h

theorem digitChar_charVal {c : Char} (h : isDigitChar c = true) :
    digitChar (charVal c) = c := by
  obtain ⟨h1, h2⟩ := isDigitChar_bounds h
  have h10 : c.toNat = 48 ∨ c.toNat = 49 ∨ c.toNat = 50 ∨ c.toNat = 51 ∨
      c.toNat = 52 ∨ c.toNat = 53 ∨ c.toNat = 54 ∨ c.toNat = 55 ∨
      c.toNat = 56 ∨ c.toNat = 57 := by omega
  rcases h10 with h|h|h|h|h|h|h|h|h|h <;>
    (apply char_eq_of_toNat; unfold charVal; rw [h]; rfl)

theorem digitChar_isDigit {d : Nat} (h : d < 10) :
    isDigitChar (digitChar d) = true := by
  interval_cases d <;> decide

theorem charVal_zero_iff {c : Char} (h : isDigitChar c = true) :
    charVal c = 0 ↔ c = '0' := by
  obtain ⟨h1, h2⟩ := isDigitChar_bounds h
  constructor
  · intro hz
    apply char_eq_of_toNat
    rw [show ('0').toNat = 48 from rfl]
    unfold charVal at hz
    omega
  · intro h0
    subst h0
    rfl

/-- Round trip of `int(...)` and `f"{n}"` on a non-empty digit run with
no leading zero. -/
theorem charsOfNat_natOfChars {l : List Char} (hne : l ≠ [])
    (hdig : ∀ c ∈ l, isDigitChar c = true)
    (hlz : l.head? = some '0' → l = ['0']) :
    charsOfNat (natOfChars l) = l := by
  obtain ⟨c, cs, rfl⟩ : ∃ c cs, l = c :: cs := by
    cases l with
    | nil => exact absurd rfl hne
    | cons c cs => exact ⟨c, cs, rfl⟩
  by_cases h0 : c = '0'
  · have hl0 : c :: cs = ['0'] := hlz (by rw [h0]; rfl)
    rw [hl0]
    rfl
  · have hcd : isDigitChar c = true := hdig c (List.mem_cons_self c cs)
    have w1 : ∀ x ∈ ((c :: cs).map charVal).reverse, x < 10 := by
      intro x hx
      rw [List.mem_reverse] at hx
      obtain ⟨d, hd, rfl⟩ := List.mem_map.1 hx
      have := isDigitChar_bounds (hdig d hd)
      unfold charVal
      omega
    have hLne : ((c :: cs).map charVal).reverse ≠ [] := by simp
    have w2 : ∀ (hh : ((c :: cs).map charVal).reverse ≠ []),
        (((c :: cs).map charVal).reverse).getLast hh ≠ 0 := by
      intro hh
      have hlast : (((c :: cs).map charVal).reverse).getLast? = some (charVal c) := by
        rw [← List.head?_reverse, List.reverse_reverse]
        rfl
      rw [List.getLast?_eq_getLast _ hh] at hlast
      injection hlast with hlast
      rw [hlast]
      intro hzero
      exact h0 ((charVal_zero_iff hcd).1 hzero)
    have hdg : Nat.digits 10 (natOfChars (c :: cs)) = ((c :: cs).map charVal).reverse := by
      unfold natOfChars
      exact Nat.digits_ofDigits 10 (by norm_num) _ w1 w2
    have hn0 : natOfChars (c :: cs) ≠ 0 := by
      intro hz
      rw [hz, Nat.digits_zero] at hdg
      exact hLne hdg.symm
    unfold charsOfNat
    rw [if_neg hn0, digits10_eq_digits, hdg, List.reverse_reverse, List.map_map]
    have : ∀ a ∈ c :: cs, (digitChar ∘ charVal) a = id a :=
      fun a ha => digitChar_charVal (hdig a ha)
    rw [List.map_congr_left this, List.map_id]

theorem charsOfNat_ne_nil (n : Nat) : charsOfNat n ≠ [] := by
  unfold charsOfNat
  by_cases h : n = 0
  · simp [h]
  · rw [if_neg h]
    simp only [ne_eq, List.map_eq_nil_iff, List.reverse_eq_nil_iff]
    rw [digits10_eq_digits]
    exact Nat.digits_ne_nil_iff_ne_zero.2 h

theorem charsOfNat_all_digit (n : Nat) :
    ∀ c ∈ charsOfNat n, isDigitChar c = true := by
  intro c hc
  unfold charsOfNat at hc
  by_cases h : n = 0
  · rw [if_pos h] at hc
    rcases List.mem_singleton.1 hc with rfl
    rfl
  · rw [if_neg h] at hc
    obtain ⟨d, hd, rfl⟩ := List.mem_map.1 hc
    rw [List.mem_reverse, digits10_eq_digits] at hd
    exact digitChar_isDigit (Nat.digits_lt_base (by norm_num) hd)

/-! ## Lemmas about the SemVer matcher -/

theorem numToken_some {l : List Char} {n : Nat} {rest : List Char}
    (h : numToken l = some (n, rest)) :
    ∃ run, run ≠ [] ∧ (∀ c ∈ run, isDigitChar c = true) ∧
      l = run ++ rest ∧ charsOfNat n = run := by
  cases htw : l.takeWhile isDigitChar with
  | nil => simp only [numToken, htw] at h; cases h
  | cons c cs =>
    simp only [numToken, htw] at h
    by_cases hz : c = '0' ∧ cs ≠ []
    · simp only [if_pos hz] at h; cases h
    · simp only [if_neg hz] at h
      injection h with h
      injection h with h1 h2
      have hmem : ∀ d ∈ c :: cs, isDigitChar d = true := by
        intro d hd
        exact List.mem_takeWhile_imp (htw ▸ hd)
      refine ⟨c :: cs, by simp, hmem, ?_, ?_⟩
      · rw [← htw, ← h2]
        exact (List.takeWhile_append_dropWhile isDigitChar l).symm
      · rw [← h1]
        apply charsOfNat_natOfChars (by simp) hmem
        intro hh
        injection hh with hh
        subst hh
        have : cs = [] := by
          by_contra hcs
          exact hz ⟨rfl, hcs⟩
        rw [this]

theorem expectDot_some {r rt : List Char} (h : expectDot r = some rt) :
    r = '.' :: rt := by
  unfold expectDot at h
  split at h
  · injection h with h
    rw [h]
  · cases h

theorem preTail_some {r : List Char} {p : Option (List Char)}
    (h : preTail r = some p) :
    (p = none ∧ r = []) ∨
      (∃ q, p = some q ∧ r = '-' :: q ∧ q ≠ [] ∧ q.all isPreChar = true) := by
  unfold preTail at h
  split at h
  · injection h with h
    exact .inl ⟨h.symm, rfl⟩
  · rename_i q
    by_cases hq : q ≠ [] ∧ q.all isPreChar
    · rw [if_pos hq] at h
      injection h with h
      exact .inr ⟨q, h.symm, rfl, hq.1, hq.2⟩
    · rw [if_neg hq] at h
      cases h
  · cases h

/-- The reconstruction at the heart of the round trip: a successful
match of `_SEMVER_RE` renders back to the exact input. -/
theorem semverMatch_str {l : List Char} {v : VersionBase}
    (h : semverMatch l = some v) : v.str = l := by
  unfold semverMatch at h
  obtain ⟨⟨a, ra⟩, ham, h⟩ := Option.bind_eq_some.1 h
  obtain ⟨r1, hd1, h⟩ := Option.bind_eq_some.1 h
  obtain ⟨⟨b, rb⟩, hbm, h⟩ := Option.bind_eq_some.1 h
  obtain ⟨r2, hd2, h⟩ := Option.bind_eq_some.1 h
  obtain ⟨⟨c, rc⟩, hcm, h⟩ := Option.bind_eq_some.1 h
  obtain ⟨p, hp, hv⟩ := Option.map_eq_some'.1 h
  obtain ⟨run1, -, -, hl1, hc1⟩ := numToken_some ham
  obtain ⟨run2, -, -, hl2, hc2⟩ := numToken_some hbm
  obtain ⟨run3, -, -, hl3, hc3⟩ := numToken_some hcm
  subst hv
  have hra := expectDot_some hd1
  have hrb := expectDot_some hd2
  subst hl1 hra hl2 hrb hl3
  rcases preTail_some hp with ⟨hpn, hrc⟩ | ⟨q, hpq, hrc, hqne, -⟩
  · subst hpn hrc
    show VersionBase.str ⟨a, b, c, none⟩ = _
    unfold VersionBase.str
    simp only []
    rw [hc1, hc2, hc3]
    simp [List.append_assoc]
  · subst hpq hrc
    show VersionBase.str ⟨a, b, c, some q⟩ = _
    unfold VersionBase.str
    simp only [if_pos hqne]
    rw [hc1, hc2, hc3]
    simp [List.append_assoc]

/-! ## Stripping is the identity on grammar-shaped strings -/

theorem digit_not_strip {c : Char} (h : isDigitChar c = true) :
    isStripChar c = false := by
  by_contra hs
  rw [Bool.not_eq_false] at hs
  unfold isStripChar at hs
  simp only [Bool.or_eq_true, decide_eq_true_eq] at hs
  rcases hs with ((((hc | hc) | hc) | hc) | hc) | hc <;>
    (subst hc; exact absurd h (by decide))

theorem preChar_not_strip {c : Char} (h : isPreChar c = true) :
    isStripChar c = false := by
  by_contra hs
  rw [Bool.not_eq_false] at hs
  unfold isStripChar at hs
  simp only [Bool.or_eq_true, decide_eq_true_eq] at hs
  rcases hs with ((((hc | hc) | hc) | hc) | hc) | hc <;>
    (subst hc; exact absurd h (by decide))

theorem pstrip_eq_self {l : List Char}
    (h1 : ∀ c, l.head? = some c → isStripChar c = false)
    (h2 : ∀ c, l.getLast? = some c → isStripChar c = false) :
    pstrip l = l := by
  unfold pstrip
  cases l with
  | nil => rfl
  | cons c tl =>
    rw [List.dropWhile_cons, h1 c rfl]
    simp only [Bool.false_eq_true, if_false]
    cases hr : (c :: tl).reverse with
    | nil => simp at hr
    | cons d dr =>
      have hd : (c :: tl).getLast? = some d := by
        rw [← List.head?_reverse, hr]
        rfl
      rw [List.dropWhile_cons, h2 d hd]
      simp only [Bool.false_eq_true, if_false]
      rw [← hr, List.reverse_reverse]

theorem getLast_append_ne {a b : List Char} (hb : b ≠ []) :
    (a ++ b).getLast? = b.getLast? := by
  rw [List.getLast?_append, List.getLast?_eq_getLast b hb]
  rfl

/-- A string matched by `_SEMVER_RE` starts with a digit and ends with
a non-whitespace character, hence `strip()` leaves it unchanged. -/
theorem semverMatch_ends {l : List Char} {v : VersionBase}
    (h : semverMatch l = some v) :
    (∃ c, l.head? = some c ∧ isDigitChar c = true) ∧
    (∃ c, l.getLast? = some c ∧ isStripChar c = false) := by
  unfold semverMatch at h
  obtain ⟨⟨a, ra⟩, ham, h⟩ := Option.bind_eq_some.1 h
  obtain ⟨r1, hd1, h⟩ := Option.bind_eq_some.1 h
  obtain ⟨⟨b, rb⟩, hbm, h⟩ := Option.bind_eq_some.1 h
  obtain ⟨r2, hd2, h⟩ := Option.bind_eq_some.1 h
  obtain ⟨⟨c, rc⟩, hcm, h⟩ := Option.bind_eq_some.1 h
  obtain ⟨p, hp, -⟩ := Option.map_eq_some'.1 h
  obtain ⟨run1, hne1, hdig1, hl1, -⟩ := numToken_some ham
  obtain ⟨run2, hne2, hdig2, hl2, -⟩ := numToken_some hbm
  obtain ⟨run3, hne3, hdig3, hl3, -⟩ := numToken_some hcm
  have hra := expectDot_some hd1
  have hrb := expectDot_some hd2
  subst hl1 hra hl2 hrb hl3
  constructor
  · obtain ⟨d, t, rfl⟩ : ∃ d t, run1 = d :: t := by
      cases run1 with
      | nil => exact absurd rfl hne1
      | cons d t => exact ⟨d, t, rfl⟩
    exact ⟨d, rfl, hdig1 d (List.mem_cons_self d t)⟩
  · have htail : ∀ x : List Char, x ≠ [] →
        (run1 ++ '.' :: (run2 ++ '.' :: x)).getLast? = x.getLast? := by
      intro x hx
      rw [getLast_append_ne (by simp)]
      rw [show ('.' :: (run2 ++ '.' :: x)) = ['.'] ++ (run2 ++ '.' :: x) from rfl]
      rw [getLast_append_ne (by simp)]
      rw [show ('.' :: x) = ['.'] ++ x from rfl]
      rw [getLast_append_ne (by simp)]
      rw [getLast_append_ne hx]
  -- the two shapes of the matched tail
    rcases preTail_some hp with ⟨-, hrc⟩ | ⟨q, -, hrc, hqne, hqpre⟩
    · subst hrc
      refine ⟨run3.getLast hne3, ?_, ?_⟩
      · rw [htail (run3 ++ []) (by simp [hne3]), List.append_nil]
        exact List.getLast?_eq_getLast _ hne3
      · exact digit_not_strip (hdig3 _ (List.getLast_mem hne3))
    · subst hrc
      refine ⟨q.getLast hqne, ?_, ?_⟩
      · rw [htail (run3 ++ '-' :: q) (by simp)]
        rw [getLast_append_ne (by simp)]
        rw [show ('-' :: q) = ['-'] ++ q from rfl]
        rw [getLast_append_ne hqne]
        exact List.getLast?_eq_getLast _ hqne
      · exact preChar_not_strip (List.all_eq_true.1 hqpre _ (List.getLast_mem hqne))

/-- The result of `substAssignFirst` being a match failure does not
depend on the replacement text. -/
theorem substLoop_none_iff (kw r1 r2 : List Char) (b : Bool) (l : List Char) :
    substLoop kw r1 b l = none ↔ substLoop kw r2 b l = none := by
  induction l generalizing b with
  | nil => cases b <;> simp [substLoop]
  | cons c tl ih =>
    cases b
    · simp only [substLoop, Option.map_eq_none']
      exact ih _
    · cases hm : matchAssignAt kw (c :: tl) with
      | some suffix => simp [substLoop, hm]
      | none =>
        simp only [substLoop, hm, Option.map_eq_none']
        exact ih _

/-! ## The claims -/

/-- C1: for every set of environment files discovered under the root,
when two or more files at different depths define the same key, the
merged environment produced by `gather_env_files` followed by
`load_env_files` maps that key to the value from the file at the
greatest depth among those defining it, regardless of the order in
which the files were listed before sorting (the listing is an arbitrary
list, and the hypotheses pin only which file is the deepest definer). -/
theorem claim_C1 (listing : List EnvFile) (k v : String) (f : EnvFile)
    (hf : f ∈ listing) (hfv : dictOf f.entries k = some (some v))
    (hmax : ∀ g ∈ listing, (dictOf g.entries k).isSome → g = f ∨ g.depth < f.depth) :
    load_env_files (gather_env_files listing) k = some v := by
  have h := loadRaw_sorted_deepest (gather_sorted listing) (mem_gather.2 hf) hfv
    (fun g hg hd => hmax g (mem_gather.1 hg) hd)
  unfold load_env_files
  rw [h]

theorem claim_C1_witness :
    load_env_files (gather_env_files
      [⟨["a.env"], [("K", some "x")]⟩, ⟨["d", "b.env"], [("K", some "y")]⟩]) "K" =
      some "y" :=
  claim_C1 [⟨["a.env"], [("K", some "x")]⟩, ⟨["d", "b.env"], [("K", some "y")]⟩]
    "K" "y" ⟨["d", "b.env"], [("K", some "y")]⟩ (by decide) (by decide) (by decide)

/-- C2: `SettingsSingleton.init` called a second time in the same
process, with the same or different record type and override
arguments (and even a different build procedure), returns the identical
already-resolved record unchanged; the record is never rebuilt, the new
arguments are ignored, and the snapshot file is written exactly once,
namely on the first call. -/
theorem claim_C2 {S C : Type} (build1 build2 : C → Dict String → S)
    (cls1 cls2 : C) (kw1 kw2 : Dict String) :
    (SettingsSingleton.init build2
        (SettingsSingleton.init build1 ⟨none, none, 0⟩ cls1 kw1).1 cls2 kw2).2 =
      (SettingsSingleton.init build1 ⟨none, none, 0⟩ cls1 kw1).2 ∧
    (SettingsSingleton.init build2
        (SettingsSingleton.init build1 ⟨none, none, 0⟩ cls1 kw1).1 cls2 kw2).1 =
      (SettingsSingleton.init build1 ⟨none, none, 0⟩ cls1 kw1).1 ∧
    (SettingsSingleton.init build1 ⟨none, none, 0⟩ cls1 kw1).1.snapshotWrites = 1 ∧
    (SettingsSingleton.init build2
        (SettingsSingleton.init build1 ⟨none, none, 0⟩ cls1 kw1).1 cls2 kw2).1.snapshotWrites = 1 :=
  ⟨rfl, rfl, rfl, rfl⟩

/-- C3: in the merged mapping of singleton initialization, a key present
in the live process environment takes the process-environment value
over the file-derived cascade value (stage `env_data.update(os.environ)`),
and a key present in the caller-supplied overrides takes the override
value over the process-environment value (stage `env_data | kwargs`). -/
theorem claim_C3 (files : List EnvFile) (environ kwargs : Dict String) (k : String) :
    (∀ w s, load_env_files files k = some w → environ k = some s →
      initEnvMerged files environ k = some s) ∧
    (∀ s u, environ k = some s → kwargs k = some u →
      initFullMerged files environ kwargs k = some u) := by
  constructor
  · intro w s _ hs
    unfold initEnvMerged dictUpdate
    rw [hs]
  · intro s u _ hu
    unfold initFullMerged dictUpdate
    rw [hu]

theorem claim_C3_witness :
    initEnvMerged [⟨["a.env"], [("K", some "w")]⟩] (dictOf [("K", "s")]) "K" = some "s" ∧
    initFullMerged [⟨["a.env"], [("K", some "w")]⟩] (dictOf [("K", "s")])
      (dictOf [("K", "u")]) "K" = some "u" :=
  ⟨(claim_C3 [⟨["a.env"], [("K", some "w")]⟩] (dictOf [("K", "s")])
      (dictOf [("K", "u")]) "K").1 "w" "s" (by decide) (by decide),
   (claim_C3 [⟨["a.env"], [("K", some "w")]⟩] (dictOf [("K", "s")])
      (dictOf [("K", "u")]) "K").2 "s" "u" (by decide) (by decide)⟩

/-- C4 counterexample: a key parsed as null in the deeper (later-applied)
file erases the value merged from the shallower file — the claim that
the merged result still maps the key to the previously merged value is
false. -/
theorem claim_C4_counterexample :
    load_env_files (gather_env_files
      [⟨["a.env"], [("K", some "x")]⟩, ⟨["d", "b.env"], [("K", none)]⟩]) "K" ≠
      some "x" := by
  decide

/-- C4 (amended): a null value never appears in the final merged result,
but it is still written into the accumulator by `env.update`, so when
the deepest file defining a key parses it as null, the key is absent
from the merged result even if an earlier-applied (shallower) file gave
it a value. -/
theorem claim_C4_amended (listing : List EnvFile) (k : String) (f : EnvFile)
    (hf : f ∈ listing) (hfv : dictOf f.entries k = some none)
    (hmax : ∀ g ∈ listing, (dictOf g.entries k).isSome → g = f ∨ g.depth < f.depth) :
    load_env_files (gather_env_files listing) k = none := by
  have h := loadRaw_sorted_deepest (gather_sorted listing) (mem_gather.2 hf) hfv
    (fun g hg hd => hmax g (mem_gather.1 hg) hd)
  unfold load_env_files
  rw [h]

theorem claim_C4_witness :
    load_env_files (gather_env_files
      [⟨["top.env"], [("J", some "v")]⟩, ⟨["n", "deep.env"], [("J", none)]⟩]) "J" =
      none :=
  claim_C4_amended [⟨["top.env"], [("J", some "v")]⟩, ⟨["n", "deep.env"], [("J", none)]⟩]
    "J" ⟨["n", "deep.env"], [("J", none)]⟩ (by decide) (by decide) (by decide)

/-- C5 counterexample: with a shallow file mapping the key to "a" and a
deeper file mapping it to "b", the merged environment holds "b" — the
deeper file's value, not the shallower file's value as the claim
states. -/
theorem claim_C5_counterexample :
    load_env_files (gather_env_files
      [⟨["s.env"], [("K", some "a")]⟩, ⟨["d", "x", "t.env"], [("K", some "b")]⟩]) "K" =
      some "b" ∧ (some "b" : Option String) ≠ some "a" := by
  constructor
  · decide
  · decide

/-- C5 (amended): merge ordering is strictly by depth — the files are
ordered deepest first and then applied in reverse, so the deeper files
are applied last; for any key defined by files at unequal depths the
deeper file's value overrides the shallower file's value in the merged
environment, in either discovery order. -/
theorem claim_C5_amended (f g : EnvFile) (k vf vg : String)
    (hd : g.depth < f.depth)
    (hfv : dictOf f.entries k = some (some vf))
    (hgv : dictOf g.entries k = some (some vg)) :
    load_env_files (gather_env_files [f, g]) k = some vf ∧
    load_env_files (gather_env_files [g, f]) k = some vf := by
  have hmax : ∀ L : List EnvFile, (∀ x ∈ L, x = f ∨ x = g) →
      ∀ x ∈ L, (dictOf x.entries k).isSome → x = f ∨ x.depth < f.depth := by
    intro L hL x hx _
    rcases hL x hx with rfl | rfl
    · exact .inl rfl
    · exact .inr hd
  constructor
  · have h := loadRaw_sorted_deepest (gather_sorted [f, g])
      (mem_gather.2 (by simp)) hfv
      (hmax _ (fun x hx => by
        have := mem_gather.1 hx
        simp only [List.mem_cons, List.mem_singleton, List.not_mem_nil, or_false] at this
        tauto))
    unfold load_env_files
    rw [h]
  · have h := loadRaw_sorted_deepest (gather_sorted [g, f])
      (mem_gather.2 (by simp)) hfv
      (hmax _ (fun x hx => by
        have := mem_gather.1 hx
        simp only [List.mem_cons, List.mem_singleton, List.not_mem_nil, or_false] at this
        tauto))
    unfold load_env_files
    rw [h]

theorem claim_C5_witness :
    load_env_files (gather_env_files
      [⟨["p", "q", "deep.env"], [("K", some "u")]⟩,
       ⟨["shallow.env"], [("K", some "w")]⟩]) "K" = some "u" ∧
    load_env_files (gather_env_files
      [⟨["shallow.env"], [("K", some "w")]⟩,
       ⟨["p", "q", "deep.env"], [("K", some "u")]⟩]) "K" = some "u" :=
  claim_C5_amended ⟨["p", "q", "deep.env"], [("K", some "u")]⟩
    ⟨["shallow.env"], [("K", some "w")]⟩ "K" "u" "w"
    (by decide) (by decide) (by decide)

/-- C6: for every string matching the strict SemVer-core grammar
(`_SEMVER_RE`), parsing it and rendering the result back yields the
string exactly: `str(VersionBase.parse(S)) == S`. -/
theorem claim_C6 {l : List Char} {v : VersionBase}
    (h : semverMatch l = some v) :
    VersionBase.parse l = some v ∧ VersionBase.str v = l := by
  obtain ⟨⟨c1, hh, hd⟩, ⟨c2, hl, hs⟩⟩ := semverMatch_ends h
  constructor
  · unfold VersionBase.parse
    rw [pstrip_eq_self
      (fun c hc => by
        rw [hh] at hc
        injection hc with hc
        subst hc
        exact digit_not_strip hd)
      (fun c hc => by
        rw [hl] at hc
        injection hc with hc
        subst hc
        exact hs)]
    exact h
  · exact semverMatch_str h

theorem claim_C6_witness :
    VersionBase.parse ("1.2.3-beta.1".data) = some ⟨1, 2, 3, some ("beta.1".data)⟩ ∧
    VersionBase.str ⟨1, 2, 3, some ("beta.1".data)⟩ = "1.2.3-beta.1".data :=
  claim_C6 (by decide)

/-- C7: for every `VersionBase` and every prerelease argument, a major
bump yields `(M+1, 0, 0, q)`, a minor bump `(M, m+1, 0, q)` and a patch
bump `(M, m, p+1, q)`; in all three cases the resulting prerelease is
exactly the passed argument, never derived from the prior one. -/
theorem claim_C7 (v : VersionBase) (q : Option (List Char)) :
    v.bumped .major q = ⟨v.major + 1, 0, 0, q⟩ ∧
    v.bumped .minor q = ⟨v.major, v.minor + 1, 0, q⟩ ∧
    v.bumped .patch q = ⟨v.major, v.minor, v.patch + 1, q⟩ ∧
    ∀ part, (v.bumped part q).prerelease = q := by
  refine ⟨rfl, rfl, rfl, ?_⟩
  intro part
  cases part <;> rfl

/-- C8: running `bump_at_project_root` with `dry_run = false` on a root
whose manifest and entry-point files both exist, where the version key
is readable but the manifest text has no line matching the
version-assignment pattern, raises the substitution failure and leaves
the filesystem — both the manifest and the entry-point file —
unchanged. -/
theorem claim_C8 (toml : List Char → Option (List Char)) (fs : FS)
    (root : FilePath') (part : BumpPart) (pre : Option (List Char))
    (T E vstr : List Char) (cur : VersionBase)
    (hT : fs (root ++ ["pyproject.toml"]) = some T)
    (hE : fs (root ++ ["src", root.getLastD "", "__init__.py"]) = some E)
    (htoml : toml T = some vstr)
    (hparse : VersionBase.parse vstr = some cur)
    (hsub : substAssignFirst pyprojectKw T [] = none) :
    bump_at_project_root toml fs root part pre false =
      (fs, .error .substitutionFailure) := by
  have hsub2 : substAssignFirst pyprojectKw T
      (('v' :: 'e' :: 'r' :: 's' :: 'i' :: 'o' :: 'n' :: ' ' :: '=' :: ' ' :: '"' ::
        (VersionBase.bumped cur part pre).str) ++ ['"']) = none :=
    (substLoop_none_iff pyprojectKw [] _ true T).1 hsub
  simp only [bump_at_project_root, write_pyproject, hT, hE, htoml, hparse, hsub2,
    Bool.false_eq_true, if_false]

theorem claim_C8_witness :
    bump_at_project_root (fun _ => some ("1.0.0".data))
      (fun p => if p = ["r", "pyproject.toml"] then some ("version = '1.0.0'\n".data)
        else if p = ["r", "src", "r", "__init__.py"] then some ("old".data) else none)
      ["r"] .patch none false =
      ((fun p => if p = ["r", "pyproject.toml"] then some ("version = '1.0.0'\n".data)
        else if p = ["r", "src", "r", "__init__.py"] then some ("old".data) else none),
       .error .substitutionFailure) :=
  claim_C8 (fun _ => some ("1.0.0".data))
    (fun p => if p = ["r", "pyproject.toml"] then some ("version = '1.0.0'\n".data)
      else if p = ["r", "src", "r", "__init__.py"] then some ("old".data) else none)
    ["r"] .patch none ("version = '1.0.0'\n".data) ("old".data) ("1.0.0".data)
    ⟨1, 0, 0, none⟩ (by decide) (by decide) (by decide) (by decide) (by decide)

/-- C9: `_bumped` never mutates the receiver: running it over the
object store returns a fresh object whose value is the pure bump of the
receiver's value, and every field of the receiver is unchanged. -/
theorem claim_C9 (s : VStore) (self : Nat) (part : BumpPart)
    (pre : Option (List Char)) (hself : self < s.next) :
    (bumpedInStore s self part pre).1.get self = s.get self ∧
    (bumpedInStore s self part pre).2 ≠ self ∧
    (bumpedInStore s self part pre).1.get (bumpedInStore s self part pre).2 =
      (s.get self).bumped part pre := by
  have hne : self ≠ s.next := by omega
  refine ⟨?_, ?_, ?_⟩
  · cases part <;> simp [bumpedInStore, VStore.get, VStore.set, hne]
  · cases part <;> (show s.next ≠ self; omega)
  · cases part <;> simp [bumpedInStore, VStore.get, VStore.set, VersionBase.bumped, hne]

theorem claim_C9_witness :
    (bumpedInStore ⟨fun _ => ⟨1, 2, 3, none⟩, 1⟩ 0 .minor none).1.get 0 =
      (⟨fun _ => ⟨1, 2, 3, none⟩, 1⟩ : VStore).get 0 ∧
    (bumpedInStore ⟨fun _ => ⟨1, 2, 3, none⟩, 1⟩ 0 .minor none).2 ≠ 0 ∧
    (bumpedInStore ⟨fun _ => ⟨1, 2, 3, none⟩, 1⟩ 0 .minor none).1.get
        (bumpedInStore ⟨fun _ => ⟨1, 2, 3, none⟩, 1⟩ 0 .minor none).2 =
      ((⟨fun _ => ⟨1, 2, 3, none⟩, 1⟩ : VStore).get 0).bumped .minor none :=
  claim_C9 ⟨fun _ => ⟨1, 2, 3, none⟩, 1⟩ 0 .minor none (by decide)

/-- C10: registering an extension type with the plugin registry after
the settings singleton has been initialized has no effect on the cached
record: a later `init` call still returns the record cached at first
initialization, the singleton state (including the cached record type)
is unchanged, regardless of the registration in between. -/
theorem claim_C10 {S C M : Type} (st : ProcState S C M) (r : S)
    (h : st.singleton.inst = some r) (m : M) (build : C → Dict String → S)
    (cls0 : C) (kw : Dict String) :
    (SettingsSingleton.init build (PluginRegistry.register st m).singleton cls0 kw).2 = r ∧
    (SettingsSingleton.init build (PluginRegistry.register st m).singleton cls0 kw).1 =
      st.singleton ∧
    (PluginRegistry.register st m).singleton.cls = st.singleton.cls := by
  refine ⟨?_, ?_, rfl⟩
  · simp [PluginRegistry.register, SettingsSingleton.init, h]
  · simp [PluginRegistry.register, SettingsSingleton.init, h]

theorem claim_C10_witness :
    (SettingsSingleton.init (fun _ _ => (0 : Nat))
      (PluginRegistry.register (⟨⟨some 7, some (), 1⟩, []⟩ : ProcState Nat Unit Unit) ()).singleton
      () (fun _ => none)).2 = 7 ∧
    (SettingsSingleton.init (fun _ _ => (0 : Nat))
      (PluginRegistry.register (⟨⟨some 7, some (), 1⟩, []⟩ : ProcState Nat Unit Unit) ()).singleton
      () (fun _ => none)).1 = (⟨⟨some 7, some (), 1⟩, []⟩ : ProcState Nat Unit Unit).singleton ∧
    (PluginRegistry.register (⟨⟨some 7, some (), 1⟩, []⟩ : ProcState Nat Unit Unit) ()).singleton.cls =
      (⟨⟨some 7, some (), 1⟩, []⟩ : ProcState Nat Unit Unit).singleton.cls :=
  claim_C10 ⟨⟨some 7, some (), 1⟩, []⟩ 7 rfl () (fun _ _ => (0 : Nat)) () (fun _ => none)

end Confidantic
